import Mathlib

/-!
Verification of the L2CAP SDU frame core
(`vendor_libs/test_vendor_lib/include/l2cap_sdu.h`, class `test_vendor_lib::L2capSdu`).

A frame is the member `sdu_data_ : std::vector<uint8_t>`, embedded here as a
`List Nat` whose wellformed members are below `256`.  The member functions
`get_payload_begin` and `get_payload_end` are defined inline in the header and
are embedded directly from that source; iterator values are embedded as signed
byte positions (offsets from `sdu_data_.begin()`), since `std::next`/`std::prev`
on a vector iterator is plain position arithmetic.  The remaining member
functions are only declared in the header (their translation unit is not part
of the sources); those are modelled from the specification, as marked on each
definition.
-/

namespace L2capSdu

/-- Wellformedness of an embedded `std::vector<uint8_t>`: every element fits
in a byte. -/
def ByteVec (sdu : List Nat) : Prop := ∀ b, b ∈ sdu → b < 256

instance (sdu : List Nat) : Decidable (ByteVec sdu) := by
  unfold ByteVec; infer_instance

/-- One shift of the 16-bit linear-feedback shift register for the Bluetooth
FCS polynomial x^16 + x^15 + x^2 + 1 in reflected (bit-reversed) form: shift
right one bit and, when the bit shifted out was set, fold in the reflected
polynomial word `0xA001`.  This is the reference (bit-level) definition the
precomputed table is checked against. -/
def lfsrStep (s : Nat) : Nat := (s >>> 1) ^^^ ((s &&& 1) * 0xA001)

/-- Modelled from the spec: the private static member `lfsr_table_`, the
"256-entry table" of "precalculated lfsr values" for the Bluetooth L2CAP FCS
(the header only declares `static const uint16_t lfsr_table_[256]`; the
translation unit holding the initializer is not among the sources).  The spec
requires it to reproduce the Bluetooth specification FCS table bit-for-bit;
these are those 256 entries. -/
def lfsr_table_ : List Nat := [
  0x0000, 0xC0C1, 0xC181, 0x0140, 0xC301, 0x03C0, 0x0280, 0xC241,
  0xC601, 0x06C0, 0x0780, 0xC741, 0x0500, 0xC5C1, 0xC481, 0x0440,
  0xCC01, 0x0CC0, 0x0D80, 0xCD41, 0x0F00, 0xCFC1, 0xCE81, 0x0E40,
  0x0A00, 0xCAC1, 0xCB81, 0x0B40, 0xC901, 0x09C0, 0x0880, 0xC841,
  0xD801, 0x18C0, 0x1980, 0xD941, 0x1B00, 0xDBC1, 0xDA81, 0x1A40,
  0x1E00, 0xDEC1, 0xDF81, 0x1F40, 0xDD01, 0x1DC0, 0x1C80, 0xDC41,
  0x1400, 0xD4C1, 0xD581, 0x1540, 0xD701, 0x17C0, 0x1680, 0xD641,
  0xD201, 0x12C0, 0x1380, 0xD341, 0x1100, 0xD1C1, 0xD081, 0x1040,
  0xF001, 0x30C0, 0x3180, 0xF141, 0x3300, 0xF3C1, 0xF281, 0x3240,
  0x3600, 0xF6C1, 0xF781, 0x3740, 0xF501, 0x35C0, 0x3480, 0xF441,
  0x3C00, 0xFCC1, 0xFD81, 0x3D40, 0xFF01, 0x3FC0, 0x3E80, 0xFE41,
  0xFA01, 0x3AC0, 0x3B80, 0xFB41, 0x3900, 0xF9C1, 0xF881, 0x3840,
  0x2800, 0xE8C1, 0xE981, 0x2940, 0xEB01, 0x2BC0, 0x2A80, 0xEA41,
  0xEE01, 0x2EC0, 0x2F80, 0xEF41, 0x2D00, 0xEDC1, 0xEC81, 0x2C40,
  0xE401, 0x24C0, 0x2580, 0xE541, 0x2700, 0xE7C1, 0xE681, 0x2640,
  0x2200, 0xE2C1, 0xE381, 0x2340, 0xE101, 0x21C0, 0x2080, 0xE041,
  0xA001, 0x60C0, 0x6180, 0xA141, 0x6300, 0xA3C1, 0xA281, 0x6240,
  0x6600, 0xA6C1, 0xA781, 0x6740, 0xA501, 0x65C0, 0x6480, 0xA441,
  0x6C00, 0xACC1, 0xAD81, 0x6D40, 0xAF01, 0x6FC0, 0x6E80, 0xAE41,
  0xAA01, 0x6AC0, 0x6B80, 0xAB41, 0x6900, 0xA9C1, 0xA881, 0x6840,
  0x7800, 0xB8C1, 0xB981, 0x7940, 0xBB01, 0x7BC0, 0x7A80, 0xBA41,
  0xBE01, 0x7EC0, 0x7F80, 0xBF41, 0x7D00, 0xBDC1, 0xBC81, 0x7C40,
  0xB401, 0x74C0, 0x7580, 0xB541, 0x7700, 0xB7C1, 0xB681, 0x7640,
  0x7200, 0xB2C1, 0xB381, 0x7340, 0xB101, 0x71C0, 0x7080, 0xB041,
  0x5000, 0x90C1, 0x9181, 0x5140, 0x9301, 0x53C0, 0x5280, 0x9241,
  0x9601, 0x56C0, 0x5780, 0x9741, 0x5500, 0x95C1, 0x9481, 0x5440,
  0x9C01, 0x5CC0, 0x5D80, 0x9D41, 0x5F00, 0x9FC1, 0x9E81, 0x5E40,
  0x5A00, 0x9AC1, 0x9B81, 0x5B40, 0x9901, 0x59C0, 0x5880, 0x9841,
  0x8801, 0x48C0, 0x4980, 0x8941, 0x4B00, 0x8BC1, 0x8A81, 0x4A40,
  0x4E00, 0x8EC1, 0x8F81, 0x4F40, 0x8D01, 0x4DC0, 0x4C80, 0x8C41,
  0x4400, 0x84C1, 0x8581, 0x4540, 0x8701, 0x47C0, 0x4680, 0x8641,
  0x8201, 0x42C0, 0x4380, 0x8341, 0x4100, 0x81C1, 0x8081, 0x4040
]

/-- One byte-step of the table-driven FCS state update, exactly as the spec
writes it: `state = table[(state ^ byte) & 0xFF] ^ (state >> 8)`. -/
def fcsStep (s b : Nat) : Nat :=
  lfsr_table_.getD ((s ^^^ b) &&& 0xFF) 0 ^^^ (s >>> 8)

/-- Modelled from the spec: the table-driven LFSR run over a byte sequence,
starting from state 0. -/
def fcsRun (l : List Nat) : Nat := l.foldl fcsStep 0

/-- Modelled from the spec: member `calculate_fcs()` (declared at
`l2cap_sdu.h:90`, body not among the sources) computes the checksum over
`bytes[0 .. buffer_size()-2)`, i.e. everything except the trailing 2-byte FCS
slot. -/
def calculate_fcs (sdu : List Nat) : Nat := fcsRun (sdu.take (sdu.length - 2))

/-- Modelled from the spec: private member `convert_from_little_endian`
(declared at `l2cap_sdu.h:110`): decode the little-endian 16-bit field at
`starting_index`, `value = bytes[i] | (bytes[i+1] << 8)`; per the spec each
field accessor fails with an OutOfRange condition when the buffer is shorter
than the required extent of the field, embedded as `none`. -/
def convert_from_little_endian (sdu : List Nat) (starting_index : Nat) : Option Nat :=
  if starting_index + 2 ≤ sdu.length then
    some (sdu.getD starting_index 0 ||| (sdu.getD (starting_index + 1) 0 <<< 8))
  else none

/-- Modelled from the spec: `get_payload_length()`, the field at offset 0. -/
def get_payload_length (sdu : List Nat) : Option Nat :=
  convert_from_little_endian sdu 0

/-- Modelled from the spec: `get_channel_id()`, the field at offset 2. -/
def get_channel_id (sdu : List Nat) : Option Nat :=
  convert_from_little_endian sdu 2

/-- Modelled from the spec: `get_total_l2cap_length()`, the field at offset 4. -/
def get_total_l2cap_length (sdu : List Nat) : Option Nat :=
  convert_from_little_endian sdu 4

/-- Modelled from the spec: `get_controls()`, the field at offset 6. -/
def get_controls (sdu : List Nat) : Option Nat :=
  convert_from_little_endian sdu 6

/-- Modelled from the spec: `get_fcs()`, the little-endian 16-bit value stored
at `buffer_size() - 2`. -/
def get_fcs (sdu : List Nat) : Option Nat :=
  convert_from_little_endian sdu (sdu.length - 2)

/-- Modelled from the spec: `get_vector_size()` returns `sdu_data_.size()`. -/
def get_vector_size (sdu : List Nat) : Nat := sdu.length

/-- From the source (`l2cap_sdu.h:74-76`, defined inline):
`get_payload_begin(offset)` returns `std::next(sdu_data_.begin(), offset)`,
i.e. the iterator at byte position `offset`; there is no bounds check. -/
def get_payload_begin (_sdu : List Nat) (offset : Nat) : Int := (offset : Int)

/-- From the source (`l2cap_sdu.h:82`, defined inline): `get_payload_end()`
returns `std::prev(sdu_data_.end(), 2)`, i.e. the iterator at byte position
`sdu_data_.size() - 2` (position arithmetic over the signed integers; there is
no check that the buffer holds at least 2 bytes). -/
def get_payload_end (sdu : List Nat) : Int := (sdu.length : Int) - 2

/-- Modelled from the spec: the static factory `L2capSduBuilder(create_from)`
(declared at `l2cap_sdu.h:66`, body not among the sources) computes the FCS
over the input bytes and appends its 2-byte little-endian encoding. -/
def L2capSduBuilder (create_from : List Nat) : List Nat :=
  create_from ++ [fcsRun create_from &&& 0xFF, fcsRun create_from >>> 8]

/-- The example frame from the header comment (`l2cap_sdu.h:30-31`). -/
def exampleFrame : List Nat :=
  [0x04, 0x00, 0x48, 0x00, 0x04, 0x00, 0xab, 0xcd, 0x78, 0x56]

/-- Flip bit `k` of the byte at position `j`. -/
def flipBit (sdu : List Nat) (j k : Nat) : List Nat :=
  sdu.set j (sdu.getD j 0 ^^^ (1 <<< k))

/-! ### Algebra of the LFSR step -/

theorem xor_left_comm (a b c : Nat) : a ^^^ (b ^^^ c) = b ^^^ (a ^^^ c) := by
  rw [← Nat.xor_assoc, Nat.xor_comm a b, Nat.xor_assoc]

theorem and_one_cases (x : Nat) : x &&& 1 = 0 ∨ x &&& 1 = 1 := by
  rw [Nat.and_one_is_mod]; omega

/-- The LFSR step is linear over GF(2): it commutes with bytewise XOR. -/
theorem lfsrStep_xor (x y : Nat) :
    lfsrStep (x ^^^ y) = lfsrStep x ^^^ lfsrStep y := by
  unfold lfsrStep
  have h1 : (x ^^^ y) >>> 1 = x >>> 1 ^^^ y >>> 1 := by
    simp [Nat.shiftRight_one, Nat.xor_div_two]
  have h2 : (x ^^^ y) &&& 1 = (x &&& 1) ^^^ (y &&& 1) := Nat.and_xor_distrib_right
  rw [h1, h2]
  rcases and_one_cases x with hx | hx <;> rcases and_one_cases y with hy | hy <;>
    simp [hx, hy, Nat.xor_assoc, Nat.xor_comm, xor_left_comm]

/-- The LFSR step keeps the state inside 16 bits. -/
theorem lfsrStep_lt {s : Nat} (h : s < 2 ^ 16) : lfsrStep s < 2 ^ 16 := by
  unfold lfsrStep
  have h1 : s >>> 1 < 2 ^ 16 := by
    rw [Nat.shiftRight_one]; omega
  rcases and_one_cases s with hs | hs
  · simpa [hs] using h1
  · exact Nat.xor_lt_two_pow h1 (by simp [hs])

/-- A 16-bit state that the LFSR step sends to zero was zero. -/
theorem lfsrStep_eq_zero {s : Nat} (h : s < 2 ^ 16) (h0 : lfsrStep s = 0) :
    s = 0 := by
  unfold lfsrStep at h0
  rcases and_one_cases s with hs | hs
  · rw [hs] at h0
    simp [Nat.shiftRight_one] at h0
    rw [Nat.and_one_is_mod] at hs
    omega
  · rw [hs, one_mul] at h0
    have h2 : s >>> 1 = 0xA001 := by
      have := Nat.xor_eq_zero.mp h0
      simpa using this
    rw [Nat.shiftRight_one] at h2
    omega

theorem lfsrIter_xor (n x y : Nat) :
    lfsrStep^[n] (x ^^^ y) = lfsrStep^[n] x ^^^ lfsrStep^[n] y := by
  induction n generalizing x y with
  | zero => simp
  | succ n ih =>
    rw [Function.iterate_succ_apply, Function.iterate_succ_apply,
      Function.iterate_succ_apply, lfsrStep_xor]
    exact ih _ _

theorem lfsrIter_lt {s : Nat} (n : Nat) (h : s < 2 ^ 16) :
    lfsrStep^[n] s < 2 ^ 16 := by
  induction n generalizing s with
  | zero => simpa using h
  | succ n ih =>
    rw [Function.iterate_succ_apply]
    exact ih (lfsrStep_lt h)

theorem lfsrIter_eq_zero {s : Nat} (n : Nat) (h : s < 2 ^ 16)
    (h0 : lfsrStep^[n] s = 0) : s = 0 := by
  induction n generalizing s with
  | zero => simpa using h0
  | succ n ih =>
    rw [Function.iterate_succ_apply] at h0
    exact lfsrStep_eq_zero h (ih (lfsrStep_lt h) h0)

/-- Eight LFSR steps are injective on 16-bit states. -/
theorem lfsrIter_inj {x y : Nat} (hx : x < 2 ^ 16) (hy : y < 2 ^ 16)
    (h : lfsrStep^[8] x = lfsrStep^[8] y) : x = y := by
  have h0 : lfsrStep^[8] (x ^^^ y) = 0 := by
    rw [lfsrIter_xor, h, Nat.xor_self]
  have := lfsrIter_eq_zero 8 (Nat.xor_lt_two_pow hx hy) h0
  exact Nat.xor_eq_zero.mp this

theorem lfsrStep_shiftLeft (y n : Nat) : lfsrStep (y <<< (n + 1)) = y <<< n := by
  unfold lfsrStep
  have h1 : y <<< (n + 1) &&& 1 = 0 := by
    rw [Nat.and_one_is_mod, Nat.shiftLeft_eq, pow_succ, ← Nat.mul_assoc]
    exact Nat.mul_mod_left _ 2
  have h2 : y <<< (n + 1) >>> 1 = y <<< n := by
    rw [Nat.shiftLeft_eq, Nat.shiftLeft_eq, Nat.shiftRight_one, pow_succ,
      ← Nat.mul_assoc]
    exact Nat.mul_div_cancel _ (by omega)
  rw [h1, h2]
  simp

/-- Feeding `y` shifted up by `n` bits through `n` LFSR steps returns `y`. -/
theorem lfsrIter_shiftLeft (n y : Nat) : lfsrStep^[n] (y <<< n) = y := by
  induction n generalizing y with
  | zero => simp
  | succ n ih =>
    rw [Function.iterate_succ_apply, lfsrStep_shiftLeft]
    exact ih y

/-! ### The table realises eight LFSR steps -/

/-- Splitting a value into its low byte and the rest. -/
theorem low_byte_decomp (x : Nat) : (x &&& 0xFF) ^^^ ((x >>> 8) <<< 8) = x := by
  apply Nat.eq_of_testBit_eq
  intro i
  have h255 : (0xFF : Nat) = 2 ^ 8 - 1 := by norm_num
  simp only [Nat.testBit_xor, Nat.testBit_and, Nat.testBit_shiftLeft,
    Nat.testBit_shiftRight, h255, Nat.testBit_two_pow_sub_one]
  by_cases hi : i < 8
  · simp [hi, Nat.not_le_of_lt hi]
  · have h8 : 8 ≤ i := Nat.le_of_not_lt hi
    have : 8 + (i - 8) = i := by omega
    simp [hi, h8, this]

/-- XOR with a byte does not change the bits above the low byte. -/
theorem xor_byte_shiftRight {b : Nat} (s : Nat) (hb : b < 256) :
    (s ^^^ b) >>> 8 = s >>> 8 := by
  apply Nat.eq_of_testBit_eq
  intro i
  have hbi : b.testBit (8 + i) = false := by
    apply Nat.testBit_lt_two_pow
    calc b < 256 := hb
      _ = 2 ^ 8 := by norm_num
      _ ≤ 2 ^ (8 + i) := Nat.pow_le_pow_right (by omega) (by omega)
  simp [Nat.testBit_shiftRight, Nat.testBit_xor, hbi]

set_option maxRecDepth 4096 in
/-- The precomputed table holds exactly the eight-fold LFSR step of each index:
it is the table of the reflected polynomial, entry for entry. -/
theorem lfsr_table_eq :
    lfsr_table_ = (List.range 256).map (fun i => lfsrStep^[8] i) := by decide

theorem lfsr_table_getD {i : Nat} (h : i < 256) :
    lfsr_table_.getD i 0 = lfsrStep^[8] i := by
  rw [lfsr_table_eq, List.getD_eq_getElem?_getD, List.getElem?_map,
    List.getElem?_range h]
  rfl

theorem and_255_lt (x : Nat) : x &&& 0xFF < 256 :=
  Nat.lt_of_le_of_lt Nat.and_le_right (by norm_num)

/-- On 16-bit states and byte inputs, the table-driven step of the source is
exactly eight bit-level LFSR steps applied to `state XOR byte`. -/
theorem fcsStep_eq_lfsr {s b : Nat} (hs : s < 2 ^ 16) (hb : b < 256) :
    fcsStep s b = lfsrStep^[8] (s ^^^ b) := by
  have hx : s ^^^ b < 2 ^ 16 :=
    Nat.xor_lt_two_pow hs (lt_trans hb (by norm_num))
  unfold fcsStep
  calc lfsr_table_.getD ((s ^^^ b) &&& 0xFF) 0 ^^^ (s >>> 8)
      = lfsrStep^[8] ((s ^^^ b) &&& 0xFF) ^^^ (s ^^^ b) >>> 8 := by
        rw [lfsr_table_getD (and_255_lt _), xor_byte_shiftRight s hb]
    _ = lfsrStep^[8] ((s ^^^ b) &&& 0xFF) ^^^
          lfsrStep^[8] (((s ^^^ b) >>> 8) <<< 8) := by
        rw [lfsrIter_shiftLeft]
    _ = lfsrStep^[8] (((s ^^^ b) &&& 0xFF) ^^^ (((s ^^^ b) >>> 8) <<< 8)) := by
        rw [lfsrIter_xor]
    _ = lfsrStep^[8] (s ^^^ b) := by rw [low_byte_decomp]

/-- The table-driven step keeps the state inside 16 bits, whatever the input
byte is. -/
theorem fcsStep_lt {s : Nat} (b : Nat) (hs : s < 2 ^ 16) :
    fcsStep s b < 2 ^ 16 := by
  unfold fcsStep
  have h1 : lfsr_table_.getD ((s ^^^ b) &&& 0xFF) 0 < 2 ^ 16 := by
    rw [lfsr_table_getD (and_255_lt _)]
    exact lfsrIter_lt 8 (lt_trans (and_255_lt _) (by norm_num))
  have h2 : s >>> 8 < 2 ^ 16 := by
    calc s >>> 8 ≤ s := by
          rw [Nat.shiftRight_eq_div_pow]; exact Nat.div_le_self _ _
      _ < 2 ^ 16 := hs
  exact Nat.xor_lt_two_pow h1 h2

/-! ### Properties of the FCS fold -/

theorem foldl_fcsStep_lt {s : Nat} (l : List Nat) (hs : s < 2 ^ 16) :
    l.foldl fcsStep s < 2 ^ 16 := by
  induction l generalizing s with
  | nil => simpa using hs
  | cons b l ih =>
    rw [List.foldl_cons]
    exact ih (fcsStep_lt b hs)

/-- The whole FCS run is a 16-bit value. -/
theorem fcsRun_lt (l : List Nat) : fcsRun l < 2 ^ 16 :=
  foldl_fcsStep_lt l (by norm_num)

theorem calculate_fcs_lt (sdu : List Nat) : calculate_fcs sdu < 2 ^ 16 :=
  fcsRun_lt _

/-- Over byte inputs the table-driven fold agrees with the fold of the
bit-level LFSR. -/
theorem foldl_fcsStep_eq_lfsr {s : Nat} (l : List Nat) (hs : s < 2 ^ 16)
    (hb : ∀ b ∈ l, b < 256) :
    l.foldl fcsStep s = l.foldl (fun t b => lfsrStep^[8] (t ^^^ b)) s := by
  induction l generalizing s with
  | nil => rfl
  | cons b l ih =>
    rw [List.foldl_cons, List.foldl_cons,
      fcsStep_eq_lfsr hs (hb b (List.mem_cons_self b l))]
    exact ih (lfsrIter_lt 8 (Nat.xor_lt_two_pow hs
        (lt_trans (hb b (List.mem_cons_self b l)) (by norm_num))))
      (fun c hc => hb c (List.mem_cons_of_mem b hc))

/-- For a fixed byte the table-driven step is injective on 16-bit states. -/
theorem fcsStep_inj {s t b : Nat} (hs : s < 2 ^ 16) (ht : t < 2 ^ 16)
    (hb : b < 256) (h : fcsStep s b = fcsStep t b) : s = t := by
  rw [fcsStep_eq_lfsr hs hb, fcsStep_eq_lfsr ht hb] at h
  have hb16 : b < 2 ^ 16 := lt_trans hb (by norm_num)
  have := lfsrIter_inj (Nat.xor_lt_two_pow hs hb16)
    (Nat.xor_lt_two_pow ht hb16) h
  calc s = s ^^^ b ^^^ b := by rw [Nat.xor_assoc, Nat.xor_self, Nat.xor_zero]
    _ = t ^^^ b ^^^ b := by rw [this]
    _ = t := by rw [Nat.xor_assoc, Nat.xor_self, Nat.xor_zero]

/-- Distinct 16-bit states stay distinct through the FCS fold. -/
theorem foldl_fcsStep_ne {s t : Nat} (l : List Nat) (hs : s < 2 ^ 16)
    (ht : t < 2 ^ 16) (hb : ∀ b ∈ l, b < 256) (hne : s ≠ t) :
    l.foldl fcsStep s ≠ l.foldl fcsStep t := by
  induction l generalizing s t with
  | nil => simpa using hne
  | cons b l ih =>
    rw [List.foldl_cons, List.foldl_cons]
    have hb0 : b < 256 := hb b (List.mem_cons_self b l)
    exact ih (fcsStep_lt b hs) (fcsStep_lt b ht)
      (fun c hc => hb c (List.mem_cons_of_mem b hc))
      (fun h => hne (fcsStep_inj hs ht hb0 h))

/-- For a fixed 16-bit state the table-driven step is injective in the input
byte. -/
theorem fcsStep_byte_inj {s b c : Nat} (hs : s < 2 ^ 16) (hb : b < 256)
    (hc : c < 256) (h : fcsStep s b = fcsStep s c) : b = c := by
  rw [fcsStep_eq_lfsr hs hb, fcsStep_eq_lfsr hs hc] at h
  have hb16 : b < 2 ^ 16 := lt_trans hb (by norm_num)
  have hc16 : c < 2 ^ 16 := lt_trans hc (by norm_num)
  have h2 := lfsrIter_inj (Nat.xor_lt_two_pow hs hb16)
    (Nat.xor_lt_two_pow hs hc16) h
  calc b = s ^^^ (s ^^^ b) := by rw [← Nat.xor_assoc, Nat.xor_self, Nat.zero_xor]
    _ = s ^^^ (s ^^^ c) := by rw [h2]
    _ = c := by rw [← Nat.xor_assoc, Nat.xor_self, Nat.zero_xor]

theorem one_shiftLeft_lt {k : Nat} (hk : k < 8) : (1 : Nat) <<< k < 256 := by
  rw [Nat.shiftLeft_eq, one_mul]
  calc 2 ^ k < 2 ^ 8 := Nat.pow_lt_pow_right (by omega) hk
    _ = 256 := by norm_num

/-- Flipping one bit of one input byte changes the result of the FCS fold. -/
theorem foldl_fcsStep_flip {s : Nat} (l : List Nat) (j k : Nat)
    (hs : s < 2 ^ 16) (hb : ∀ b ∈ l, b < 256) (hj : j < l.length)
    (hk : k < 8) :
    (l.set j (l.getD j 0 ^^^ (1 <<< k))).foldl fcsStep s ≠
      l.foldl fcsStep s := by
  induction l generalizing s j with
  | nil => simp at hj
  | cons b l ih =>
    have hb0 : b < 256 := hb b (List.mem_cons_self b l)
    have hbt : ∀ c ∈ l, c < 256 := fun c hc => hb c (List.mem_cons_of_mem b hc)
    cases j with
    | zero =>
      simp only [List.set_cons_zero, List.getD_cons_zero, List.foldl_cons]
      have hflip : b ^^^ (1 <<< k) < 256 := by
        have h256 : (256 : Nat) = 2 ^ 8 := by norm_num
        rw [h256]
        exact Nat.xor_lt_two_pow (h256 ▸ hb0) (h256 ▸ one_shiftLeft_lt hk)
      apply foldl_fcsStep_ne l (fcsStep_lt _ hs) (fcsStep_lt _ hs) hbt
      intro h
      have heq : b ^^^ (1 <<< k) = b := fcsStep_byte_inj hs hflip hb0 h
      have h0 : (1 : Nat) <<< k = 0 := by
        calc (1 : Nat) <<< k = b ^^^ (b ^^^ (1 <<< k)) := by
              rw [← Nat.xor_assoc, Nat.xor_self, Nat.zero_xor]
          _ = b ^^^ b := by rw [heq]
          _ = 0 := Nat.xor_self b
      rw [Nat.shiftLeft_eq, one_mul] at h0
      simp at h0
    | succ j =>
      simp only [List.set_cons_succ, List.getD_cons_succ, List.foldl_cons]
      exact ih j (fcsStep_lt b hs) hbt (by simpa using hj)

/-! ### The builder -/

theorem builder_length (P : List Nat) :
    (L2capSduBuilder P).length = P.length + 2 := by
  simp [L2capSduBuilder]

theorem builder_take (P : List Nat) :
    (L2capSduBuilder P).take P.length = P := by
  unfold L2capSduBuilder
  exact List.take_left P _

/-- The FCS the built frame computes over itself is the FCS of the input. -/
theorem builder_calculate (P : List Nat) :
    calculate_fcs (L2capSduBuilder P) = fcsRun P := by
  unfold calculate_fcs
  have h1 : (L2capSduBuilder P).length - 2 = P.length := by
    rw [builder_length]; omega
  rw [h1, builder_take]

theorem builder_getD_low (P : List Nat) :
    (L2capSduBuilder P).getD P.length 0 = fcsRun P &&& 0xFF := by
  unfold L2capSduBuilder
  rw [List.getD_eq_getElem?_getD, List.getElem?_append_right (Nat.le_refl _)]
  simp

theorem builder_getD_high (P : List Nat) :
    (L2capSduBuilder P).getD (P.length + 1) 0 = fcsRun P >>> 8 := by
  unfold L2capSduBuilder
  rw [List.getD_eq_getElem?_getD,
    List.getElem?_append_right (Nat.le_add_right _ _)]
  simp

/-- Reassembling a value from its low byte and its high part, `|||` form. -/
theorem low_byte_or_decomp (x : Nat) : (x &&& 0xFF) ||| ((x >>> 8) <<< 8) = x := by
  apply Nat.eq_of_testBit_eq
  intro i
  have h255 : (0xFF : Nat) = 2 ^ 8 - 1 := by norm_num
  simp only [Nat.testBit_or, Nat.testBit_and, Nat.testBit_shiftLeft,
    Nat.testBit_shiftRight, h255, Nat.testBit_two_pow_sub_one]
  by_cases hi : i < 8
  · simp [hi, Nat.not_le_of_lt hi]
  · have h8 : 8 ≤ i := Nat.le_of_not_lt hi
    have : 8 + (i - 8) = i := by omega
    simp [hi, h8, this]

/-! ### Claim theorems -/

/-- C1: for every frame of bytes, `calculate_fcs()` is the checksum over
`bytes[0 .. buffer_size()-2)` computed by the table-driven update
`state = lfsr_table_[(state ^ byte) & 0xFF] ^ (state >> 8)` from initial
state 0, and the driving table is exactly the 256-entry table of the
reflected Bluetooth polynomial x^16 + x^15 + x^2 + 1: entry `i` is eight
bit-level LFSR shifts of `i`, so the table-driven fold coincides with the
bit-level LFSR run. -/
theorem calculate_fcs_lfsr_spec (sdu : List Nat) (hb : ByteVec sdu) :
    calculate_fcs sdu =
      (sdu.take (sdu.length - 2)).foldl
        (fun state byte =>
          lfsr_table_.getD ((state ^^^ byte) &&& 0xFF) 0 ^^^ (state >>> 8)) 0
    ∧ calculate_fcs sdu =
      (sdu.take (sdu.length - 2)).foldl
        (fun state byte => lfsrStep^[8] (state ^^^ byte)) 0
    ∧ lfsr_table_ = (List.range 256).map (fun i => lfsrStep^[8] i) := by
  refine ⟨rfl, ?_, lfsr_table_eq⟩
  unfold calculate_fcs fcsRun
  apply foldl_fcsStep_eq_lfsr _ (by norm_num)
  intro b hbm
  exact hb b (List.mem_of_mem_take hbm)

/-- Witness for C1 at the example frame of the header comment. -/
theorem calculate_fcs_lfsr_spec_witness :
    ByteVec exampleFrame ∧
      (calculate_fcs exampleFrame =
        (exampleFrame.take (exampleFrame.length - 2)).foldl
          (fun state byte =>
            lfsr_table_.getD ((state ^^^ byte) &&& 0xFF) 0 ^^^ (state >>> 8)) 0
      ∧ calculate_fcs exampleFrame =
        (exampleFrame.take (exampleFrame.length - 2)).foldl
          (fun state byte => lfsrStep^[8] (state ^^^ byte)) 0
      ∧ lfsr_table_ = (List.range 256).map (fun i => lfsrStep^[8] i)) :=
  ⟨by decide, calculate_fcs_lfsr_spec exampleFrame (by decide)⟩

/-- C2: a frame produced by `L2capSduBuilder` is self-consistent: its stored
FCS (`get_fcs()`) equals the FCS recomputed from its buffer
(`calculate_fcs()`). -/
theorem builder_fcs_self_consistent (P : List Nat) :
    get_fcs (L2capSduBuilder P) = some (calculate_fcs (L2capSduBuilder P)) := by
  unfold get_fcs convert_from_little_endian
  have h1 : (L2capSduBuilder P).length - 2 = P.length := by
    rw [builder_length]; omega
  have h2 : P.length + 2 ≤ (L2capSduBuilder P).length := by
    rw [builder_length]
  rw [h1, if_pos h2, builder_getD_low]
  have h3 : P.length + 1 < (L2capSduBuilder P).length := by
    rw [builder_length]; omega
  rw [builder_getD_high, builder_calculate, low_byte_or_decomp]

/-- C7: flipping any single bit of any byte in `bytes[0 .. buffer_size()-2)`
changes the value of `calculate_fcs()`. -/
theorem calculate_fcs_bit_flip (sdu : List Nat) (j k : Nat) (hb : ByteVec sdu)
    (hj : j + 2 < sdu.length) (hk : k < 8) :
    calculate_fcs (flipBit sdu j k) ≠ calculate_fcs sdu := by
  unfold calculate_fcs flipBit fcsRun
  rw [List.length_set]
  have hjt : j < sdu.length - 2 := by omega
  have hget : sdu.getD j 0 = (sdu.take (sdu.length - 2)).getD j 0 := by
    rw [List.getD_eq_getElem?_getD, List.getD_eq_getElem?_getD,
      List.getElem?_take_of_lt hjt]
  rw [List.set_take, hget]
  apply foldl_fcsStep_flip _ j k (by norm_num)
  · intro b hbm
    exact hb b (List.mem_of_mem_take hbm)
  · rw [List.length_take]
    omega
  · exact hk

/-- Witness for C7: flipping bit 0 of byte 0 of the example frame changes the
checksum. -/
theorem calculate_fcs_bit_flip_witness :
    ByteVec exampleFrame ∧ 0 + 2 < exampleFrame.length ∧ 0 < 8 ∧
      calculate_fcs (flipBit exampleFrame 0 0) ≠ calculate_fcs exampleFrame :=
  ⟨by decide, by decide, by decide,
    calculate_fcs_bit_flip exampleFrame 0 0 (by decide) (by decide) (by decide)⟩

/-- C8: the buffer built by `L2capSduBuilder(P)` is exactly `P` followed by
the 2-byte little-endian encoding of the FCS computed over `P` (which is also
what the finished frame itself computes over its first `buffer_size() - 2`
bytes); hence its size is `P.length + 2` and its first `P.length` bytes are
`P` unchanged. -/
theorem builder_appends_le_fcs (P : List Nat) :
    L2capSduBuilder P = P ++ [fcsRun P &&& 0xFF, fcsRun P >>> 8]
    ∧ calculate_fcs (L2capSduBuilder P) = fcsRun P
    ∧ (L2capSduBuilder P).length = P.length + 2
    ∧ (L2capSduBuilder P).take P.length = P :=
  ⟨rfl, builder_calculate P, builder_length P, builder_take P⟩

/-- C3 counterexample: at offset 9 on the 10-byte example frame we have
`offset > buffer_size() - 2`, yet `get_payload_begin` does not fail with any
InvalidOffset condition: the inline source simply returns
`std::next(sdu_data_.begin(), offset)`, the position past the FCS region. -/
theorem get_payload_begin_no_check_cex :
    exampleFrame.length - 2 < 9 ∧ get_payload_begin exampleFrame 9 = 9 :=
  ⟨by decide, by decide⟩

/-- C3 (amended): `get_payload_begin(offset)` returns the iterator at byte
position `offset` from the start of the buffer unconditionally; it performs no
bounds check and signals no InvalidOffset condition. -/
theorem get_payload_begin_returns_offset (sdu : List Nat) (offset : Nat) :
    get_payload_begin sdu offset = (offset : Int) := rfl

/-- C4 counterexample: on an empty buffer (`buffer_size() < 2`)
`get_payload_end` does not fail with any MalformedFrame condition: the inline
source simply returns `std::prev(sdu_data_.end(), 2)`, the position two bytes
before the start of the buffer. -/
theorem get_payload_end_no_check_cex :
    ([] : List Nat).length < 2 ∧ get_payload_end ([] : List Nat) = -2 :=
  ⟨by decide, by decide⟩

/-- C4 (amended): `get_payload_end()` returns the iterator at byte position
`buffer_size() - 2` unconditionally (a position before the start of the buffer
when `buffer_size() < 2`); it performs no check and signals no MalformedFrame
condition. -/
theorem get_payload_end_returns_length_sub_two (sdu : List Nat) :
    get_payload_end sdu = (sdu.length : Int) - 2 := rfl

/-- C5: every multi-byte field accessor decodes its field as a little-endian
unsigned 16-bit integer `bytes[i] | (bytes[i+1] << 8)`; on the example frame
of the header comment the five accessors return the documented values. -/
theorem accessors_little_endian (sdu : List Nat) (i : Nat)
    (h : i + 2 ≤ sdu.length) :
    convert_from_little_endian sdu i =
      some (sdu.getD i 0 ||| (sdu.getD (i + 1) 0 <<< 8))
    ∧ get_payload_length exampleFrame = some 0x0004
    ∧ get_channel_id exampleFrame = some 0x0048
    ∧ get_total_l2cap_length exampleFrame = some 0x0004
    ∧ get_controls exampleFrame = some 0xcdab
    ∧ get_fcs exampleFrame = some 0x5678 := by
  refine ⟨?_, by decide, by decide, by decide, by decide, by decide⟩
  unfold convert_from_little_endian
  rw [if_pos h]

/-- Witness for C5 at the example frame, field offset 0. -/
theorem accessors_little_endian_witness :
    (0 + 2 ≤ exampleFrame.length) ∧
      (convert_from_little_endian exampleFrame 0 =
        some (exampleFrame.getD 0 0 ||| (exampleFrame.getD (0 + 1) 0 <<< 8))
      ∧ get_payload_length exampleFrame = some 0x0004
      ∧ get_channel_id exampleFrame = some 0x0048
      ∧ get_total_l2cap_length exampleFrame = some 0x0004
      ∧ get_controls exampleFrame = some 0xcdab
      ∧ get_fcs exampleFrame = some 0x5678) :=
  ⟨by decide, accessors_little_endian exampleFrame 0 (by decide)⟩

theorem cfle_none_iff (sdu : List Nat) (i : Nat) :
    convert_from_little_endian sdu i = none ↔ sdu.length < i + 2 := by
  unfold convert_from_little_endian
  split <;> simp <;> omega

/-- C6 counterexample: a 9-byte buffer is shorter than the 10-byte minimal
frame, yet `get_payload_length` (and even the offset-6 accessor
`get_controls`) succeeds on it rather than failing: accessors only check the
extent of their own field. -/
theorem short_buffer_accessor_cex :
    ([1, 2, 3, 4, 5, 6, 7, 8, 9] : List Nat).length < 10
    ∧ get_payload_length [1, 2, 3, 4, 5, 6, 7, 8, 9] = some 0x0201
    ∧ get_controls [1, 2, 3, 4, 5, 6, 7, 8, 9] = some 0x0807 := by decide

/-- C6 (amended): each header accessor fails (with the OutOfRange condition,
embedded as `none`) exactly when the buffer is shorter than the extent its own
field requires -- offsets 0/2/4/6 need 2/4/6/8 bytes and the stored FCS needs
2 -- so a buffer shorter than 10 bytes still satisfies the accessors whose
field fits. -/
theorem accessors_fail_iff_extent (sdu : List Nat) :
    (get_payload_length sdu = none ↔ sdu.length < 2)
    ∧ (get_channel_id sdu = none ↔ sdu.length < 4)
    ∧ (get_total_l2cap_length sdu = none ↔ sdu.length < 6)
    ∧ (get_controls sdu = none ↔ sdu.length < 8)
    ∧ (get_fcs sdu = none ↔ sdu.length < 2) := by
  refine ⟨?_, ?_, ?_, ?_, ?_⟩
  · unfold get_payload_length
    rw [cfle_none_iff]
  · unfold get_channel_id
    rw [cfle_none_iff]
  · unfold get_total_l2cap_length
    rw [cfle_none_iff]
  · unfold get_controls
    rw [cfle_none_iff]
  · unfold get_fcs
    rw [cfle_none_iff]
    omega

/-- C9: `get_payload_begin(offset)` is the position exactly `offset` bytes
from the start of the buffer, for every offset; when the offset stays at or
before the FCS region the payload slice `[begin, end)` has length
`buffer_size() - 2 - offset`. -/
theorem payload_extent_length (sdu : List Nat) (offset : Nat) :
    get_payload_begin sdu offset = (offset : Int)
    ∧ ((offset : Int) ≤ (sdu.length : Int) - 2 →
        get_payload_end sdu - get_payload_begin sdu offset =
          (sdu.length : Int) - 2 - (offset : Int)) :=
  ⟨rfl, fun _ => rfl⟩

/-- Witness for C9 at the example frame, offset 6. -/
theorem payload_extent_length_witness :
    (6 : Int) ≤ (exampleFrame.length : Int) - 2 ∧
      get_payload_end exampleFrame - get_payload_begin exampleFrame 6 =
        (exampleFrame.length : Int) - 2 - (6 : Int) :=
  ⟨by decide, (payload_extent_length exampleFrame 6).2 (by decide)⟩

/-- C10: for frames of at least 2 bytes the payload end position is the
payload begin position taken at offset `get_vector_size() - 2`, and it depends
only on the length of the buffer, never on its contents. -/
theorem payload_end_from_vector_size (sdu : List Nat) (h : 2 ≤ sdu.length) :
    get_payload_end sdu = get_payload_begin sdu (get_vector_size sdu - 2)
    ∧ ∀ sdu2 : List Nat, sdu2.length = sdu.length →
        get_payload_end sdu2 = get_payload_end sdu := by
  constructor
  · unfold get_payload_end get_payload_begin get_vector_size
    omega
  · intro sdu2 h2
    unfold get_payload_end
    rw [h2]

/-- Witness for C10 at the example frame. -/
theorem payload_end_from_vector_size_witness :
    2 ≤ exampleFrame.length ∧
      (get_payload_end exampleFrame =
        get_payload_begin exampleFrame (get_vector_size exampleFrame - 2)
      ∧ ∀ sdu2 : List Nat, sdu2.length = exampleFrame.length →
          get_payload_end sdu2 = get_payload_end exampleFrame) :=
  ⟨by decide, payload_end_from_vector_size exampleFrame (by decide)⟩

end L2capSdu
